import Mathlib

/-!
Shallow embedding of `src/functionapproximators/ModelParametersLWR.cpp`
(DmpBbo, Locally Weighted Regression model parameters).

Conventions of the embedding:
* Eigen `MatrixXd` is modelled by `LWR.MatrixR K`: an explicit shape
  (`rows`, `cols`) together with a total entry function.  All matrices
  produced by the modelled operations are built with `MatrixR.ofFn`,
  which canonicalises out-of-range entries to `0`; `IsNormal` states that
  a matrix is in this canonical form (Eigen matrices have no out-of-range
  entries at all, so this is purely a representation choice).
* `double` is modelled by an arbitrary linear ordered field `K`
  (exact arithmetic; the spec's tolerance statements become equalities).
  The C library functions `std::exp` and `std::atan2 (·, 1.0)` are
  modelled by an abstract primitive record `Prim` — their only property
  used by the code under verification is positivity of `exp`, which is
  taken as a hypothesis where needed.
* The mutable instance state of `ModelParametersLWR` is the structure
  `LWR.Model`; the two cache member matrices `inputs_cached_` /
  `normalized_kernel_activations_cached_` (declared in the header, which
  is not part of the sources; default-initialised to empty matrices) are
  modelled as a single optional cache entry, following the spec's
  description of the Activation Cache.  `clearCache` is likewise
  modelled from the spec: it empties that entry.
* Void methods that mutate the object become functions `Model → ... → Model`;
  methods with matrix out-parameters return the matrix.
-/

namespace LWR

/-- A real-valued dense matrix: shape plus total entry function
(entries outside the shape are meaningless; canonical matrices zero them). -/
structure MatrixR (K : Type) where
  rows : Nat
  cols : Nat
  entry : Nat → Nat → K

/-- A flat parameter vector (Eigen `VectorXd`): length plus entry function. -/
structure FlatVec (K : Type) where
  len : Nat
  entry : Nat → K

variable {K : Type} [LinearOrderedField K]

/-- Build a canonical matrix from a shape and an entry function. -/
def MatrixR.ofFn (r c : Nat) (f : Nat → Nat → K) : MatrixR K :=
  ⟨r, c, fun i j => if i < r ∧ j < c then f i j else 0⟩

/-- Build a canonical flat vector from a length and an entry function. -/
def FlatVec.ofFn (n : Nat) (f : Nat → K) : FlatVec K :=
  ⟨n, fun k => if k < n then f k else 0⟩

/-- A matrix is canonical: it equals its own `ofFn` rebuild. -/
def MatrixR.IsNormal (A : MatrixR K) : Prop :=
  A = MatrixR.ofFn A.rows A.cols A.entry

/-- Element-wise equality test of two same-shaped matrices, Eigen's
`(a.array() == b.array()).all()` (iterating over the shape of the first). -/
def MatrixR.valsEqB (A B : MatrixR K) : Bool :=
  (List.range A.rows).all fun i =>
    (List.range A.cols).all fun j => decide (A.entry i j = B.entry i j)

/-- Abstract model of the C math library functions used by the source:
`exp` for `std::exp` and `atan` for `std::atan2 (·, 1.0)`. -/
structure Prim (K : Type) where
  exp : K → K
  atan : K → K

/-- The instance state of `ModelParametersLWR`: the four parameter
matrices, the flags, the stored flat-vector size and the activation
cache (last inputs, last normalized activations). -/
structure Model (K : Type) where
  centers : MatrixR K
  widths : MatrixR K
  slopes : MatrixR K
  offsets : MatrixR K
  asymmetric_kernels : Bool
  lines_pivot_at_max_activation : Bool
  slopes_as_angles : Bool
  caching : Bool
  all_values_vector_size : Nat
  cache : Option (MatrixR K × MatrixR K)

/-- The constructor `ModelParametersLWR(centers, widths, slopes, offsets,
asymmetric_kernels, lines_pivot_at_max_activation)`: stores the matrices
and flags, forces `slopes_as_angles_ = false`, `caching_ = true`, computes
`all_values_vector_size_`, and starts with an empty cache. -/
def mkModel (centers widths slopes offsets : MatrixR K)
    (asymmetric_kernels lines_pivot_at_max_activation : Bool) : Model K :=
  { centers := centers
    widths := widths
    slopes := slopes
    offsets := offsets
    asymmetric_kernels := asymmetric_kernels
    lines_pivot_at_max_activation := lines_pivot_at_max_activation
    slopes_as_angles := false
    caching := true
    all_values_vector_size :=
      centers.rows * centers.cols + widths.rows * widths.cols
        + offsets.rows * offsets.cols + slopes.rows * slopes.cols
    cache := none }

/-- `ModelParametersLWR::clone()`: re-runs the constructor on the four
matrices and the `asymmetric_kernels_` and `lines_pivot_at_max_activation_`
flags (cpp line 77-79). -/
def Model.clone (m : Model K) : Model K :=
  mkModel m.centers m.widths m.slopes m.offsets
    m.asymmetric_kernels m.lines_pivot_at_max_activation

/-- Modelled from the spec: `clearCache()` is declared in the header (not
among the sources); per spec §4.2/§9 it invalidates (empties) the single
activation-cache entry. -/
def Model.clearCache (m : Model K) : Model K :=
  { m with cache := none }

/-- Modelled from the spec: `getParameterVectorAllSize()` is a header
accessor returning the stored derived size `all_values_vector_size_`. -/
def Model.getParameterVectorAllSize (m : Model K) : Nat :=
  m.all_values_vector_size

/-- Shape and construction invariants established by the constructor's
asserts and maintained by every modelled operation, plus canonicity of the
stored matrices (representation convention) and the facts that
`slopes_as_angles_` is never true in a reachable state (the constructor
forces it false and `set_slopes_as_angles` re-forces it false). -/
structure WF (m : Model K) : Prop where
  widths_rows : m.widths.rows = m.centers.rows
  widths_cols : m.widths.cols = m.centers.cols
  slopes_rows : m.slopes.rows = m.centers.rows
  slopes_cols : m.slopes.cols = m.centers.cols
  offsets_rows : m.offsets.rows = m.centers.rows
  offsets_cols : m.offsets.cols = 1
  size_eq : m.all_values_vector_size =
    m.centers.rows * m.centers.cols + m.widths.rows * m.widths.cols
      + m.offsets.rows * m.offsets.cols + m.slopes.rows * m.slopes.cols
  angles_off : m.slopes_as_angles = false
  centers_normal : m.centers.IsNormal
  widths_normal : m.widths.IsNormal
  slopes_normal : m.slopes.IsNormal
  offsets_normal : m.offsets.IsNormal

/-- The effective width `w` used by `kernelActivations` for basis `bb`,
dimension `i_dim`, sample `i_s`: normally `widths(bb, i_dim)`, but with
asymmetric kernels, `x < c` and `bb > 0` the previous basis function's
width `widths(bb-1, i_dim)` (cpp lines 283-288). -/
def kernelWidth (centers widths inputs : MatrixR K) (asymmetric_kernels : Bool)
    (i_s bb i_dim : Nat) : K :=
  if asymmetric_kernels = true ∧ inputs.entry i_s i_dim < centers.entry bb i_dim ∧ 0 < bb then
    widths.entry (bb - 1) i_dim
  else widths.entry bb i_dim

/-- One factor `exp(-0.5*pow(x-c,2)/(w*w))` of the activation product
(cpp line 290). -/
def kernelTerm (P : Prim K) (centers widths inputs : MatrixR K)
    (asymmetric_kernels : Bool) (i_s bb i_dim : Nat) : K :=
  P.exp (-(1 / 2) * (inputs.entry i_s i_dim - centers.entry bb i_dim) ^ 2 /
    (kernelWidth centers widths inputs asymmetric_kernels i_s bb i_dim *
      kernelWidth centers widths inputs asymmetric_kernels i_s bb i_dim))

/-- Static `ModelParametersLWR::kernelActivations(centers, widths, inputs,
kernel_activations, asymmetric_kernels)` (cpp lines 250-294): entry
`(i_s, bb)` starts at `1.0` and is multiplied, over the dimensions, by
`exp(-0.5*pow(x-c,2)/(w*w))` with the asymmetric width selection. -/
def kernelActivations (P : Prim K) (centers widths inputs : MatrixR K)
    (asymmetric_kernels : Bool) : MatrixR K :=
  MatrixR.ofFn inputs.rows centers.rows fun i_s bb =>
    (List.range centers.cols).foldl
      (fun acc i_dim =>
        acc * kernelTerm P centers widths inputs asymmetric_kernels i_s bb i_dim)
      1

/-- Instance-level `ModelParametersLWR::kernelActivations(inputs, ...)`
(cpp lines 81-84): delegates to the static routine on the member
matrices and the `asymmetric_kernels_` flag. -/
def Model.kernelActivations (P : Prim K) (m : Model K) (inputs : MatrixR K) : MatrixR K :=
  LWR.kernelActivations P m.centers m.widths inputs m.asymmetric_kernels

/-- Row sum of a matrix: `rowwise().sum()` at row `s`. -/
def rowSumsOf (A : MatrixR K) (s : Nat) : K :=
  ∑ b ∈ Finset.range A.cols, A.entry s b

/-- `(sum_kernel_activations.array() == 0).any()` over the column of row sums. -/
def anyZeroRowSum (A : MatrixR K) : Bool :=
  (List.range A.rows).any fun s => decide (rowSumsOf A s = 0)

/-- `sum_kernel_activations.maxCoeff()` over the column of row sums
(Eigen requires a nonempty matrix; for `A.rows = 0` the value is junk,
matching the undefinedness of `maxCoeff` there). -/
def maxRowSum (A : MatrixR K) : K :=
  (List.range A.rows).foldl (fun acc s => max acc (rowSumsOf A s)) (rowSumsOf A 0)

/-- The (possibly epsilon-adjusted) row sum used as the divisor: if any row
sum is exactly zero, `maxCoeff()/100000.0` is added to all of them
(cpp lines 327-329). -/
def adjRowSum (A : MatrixR K) (s : Nat) : K :=
  if anyZeroRowSum A then rowSumsOf A s + maxRowSum A / 100000 else rowSumsOf A s

/-- Static `ModelParametersLWR::normalizedKernelActivations(centers, widths,
inputs, normalized_kernel_activations, asymmetric_kernels)` (cpp lines
296-333): with a single basis function the result is filled with `1.0`;
otherwise raw activations are computed and divided row-wise by the
(adjusted) row sums. -/
def normalizedKernelActivations (P : Prim K) (centers widths inputs : MatrixR K)
    (asymmetric_kernels : Bool) : MatrixR K :=
  if centers.rows = 1 then
    MatrixR.ofFn inputs.rows centers.rows fun _ _ => 1
  else
    let A := kernelActivations P centers widths inputs asymmetric_kernels
    MatrixR.ofFn A.rows A.cols fun s b => A.entry s b / adjRowSum A s

/-- Result of the instance-level cached `normalizedKernelActivations`:
the returned matrix, the updated instance state, and which of the two
return paths of the source was taken (`used_cache = true` for the early
return of the cached matrix at cpp line 98). -/
structure NKAOut (K : Type) where
  activations : MatrixR K
  model : Model K
  used_cache : Bool

/-- Instance-level `ModelParametersLWR::normalizedKernelActivations(inputs,
normalized_kernel_activations)` (cpp lines 86-114): if caching is on and
the cached inputs matrix has the same shape and element-wise equal values,
return the cached activations; otherwise recompute with the static routine
and (if caching) store the new `(inputs, result)` pair. -/
def Model.normalizedKernelActivations (P : Prim K) (m : Model K)
    (inputs : MatrixR K) : NKAOut K :=
  let fresh := LWR.normalizedKernelActivations P m.centers m.widths inputs
    m.asymmetric_kernels
  let recompute : NKAOut K :=
    { activations := fresh
      model := if m.caching then { m with cache := some (inputs, fresh) } else m
      used_cache := false }
  if m.caching then
    match m.cache with
    | some (ci, co) =>
      if inputs.rows = ci.rows ∧ inputs.cols = ci.cols then
        if inputs.valsEqB ci then
          { activations := co, model := m, used_cache := true }
        else recompute
      else recompute
    | none => recompute
  else recompute

/-- The per-line dot product `slopes_.row(i_line) * centers_.row(i_line).transpose()`
(the scalar `ac[i_line]` of cpp lines 133-138 and 188-191). -/
def Model.slopesDotCenters (m : Model K) (i_line : Nat) : K :=
  ∑ d ∈ Finset.range m.centers.cols, m.slopes.entry i_line d * m.centers.entry i_line d

/-- `ModelParametersLWR::set_lines_pivot_at_max_activation` (cpp lines
116-158): no-op when the flag already has the requested value; otherwise
add `ac` to the offsets (switching the pivot on) or subtract it
(switching it off), and set the flag. -/
def Model.set_lines_pivot_at_max_activation (m : Model K)
    (lines_pivot_at_max_activation : Bool) : Model K :=
  if m.lines_pivot_at_max_activation = lines_pivot_at_max_activation then m
  else
    let offsets' :=
      if lines_pivot_at_max_activation then
        MatrixR.ofFn m.offsets.rows m.offsets.cols fun i j =>
          m.offsets.entry i j + m.slopesDotCenters i
      else
        MatrixR.ofFn m.offsets.rows m.offsets.cols fun i j =>
          m.offsets.entry i j - m.slopesDotCenters i
    { m with offsets := offsets'
             lines_pivot_at_max_activation := lines_pivot_at_max_activation }

/-- `ModelParametersLWR::set_slopes_as_angles` (cpp lines 160-166): prints
a not-implemented diagnostic and forces the flag back to `false`. -/
def Model.set_slopes_as_angles (m : Model K) (_slopes_as_angles : Bool) : Model K :=
  { m with slopes_as_angles := false }

/-- `ModelParametersLWR::getLines(inputs, lines)` (cpp lines 171-196):
`lines = inputs*slopes_.transpose() + offsets_.transpose().replicate(...)`,
and with the pivot flag on the `ac` column is additionally subtracted. -/
def Model.getLines (m : Model K) (inputs : MatrixR K) : MatrixR K :=
  let lines0 := MatrixR.ofFn inputs.rows m.slopes.rows fun s b =>
    (∑ d ∈ Finset.range inputs.cols, inputs.entry s d * m.slopes.entry b d)
      + m.offsets.entry b 0
  if m.lines_pivot_at_max_activation then
    MatrixR.ofFn lines0.rows lines0.cols fun s b =>
      lines0.entry s b - m.slopesDotCenters b
  else lines0

/-- `ModelParametersLWR::locallyWeightedLines(inputs, output)` (cpp lines
198-209): `(lines.array()*activations.array()).rowwise().sum()`; the call
to the instance-level `normalizedKernelActivations` may update the cache,
so the updated model is returned alongside the output column. -/
def Model.locallyWeightedLines (P : Prim K) (m : Model K)
    (inputs : MatrixR K) : MatrixR K × Model K :=
  let lines := m.getLines inputs
  let r := m.normalizedKernelActivations P inputs
  (MatrixR.ofFn lines.rows 1 fun s _ =>
      ∑ b ∈ Finset.range lines.cols, lines.entry s b * r.activations.entry s b,
    r.model)

/-- `ModelParametersLWR::getParameterVectorAll(values)` (cpp lines 403-440):
the flat vector lays out, in order, the columns of `centers_`, the columns
of `widths_`, the `offsets_` column and the columns of `slopes_` (the
latter through `atan2(·, 1.0)` when `slopes_as_angles_` is set). -/
def Model.getParameterVectorAll (P : Prim K) (m : Model K) : FlatVec K :=
  let sc := m.centers.rows * m.centers.cols
  let sw := m.widths.rows * m.widths.cols
  let so := m.offsets.rows
  FlatVec.ofFn m.all_values_vector_size fun k =>
    if k < sc then
      m.centers.entry (k % m.centers.rows) (k / m.centers.rows)
    else if k < sc + sw then
      m.widths.entry ((k - sc) % m.widths.rows) ((k - sc) / m.widths.rows)
    else if k < sc + sw + so then
      m.offsets.entry (k - (sc + sw)) 0
    else
      let k2 := k - (sc + sw + so)
      let s := m.slopes.entry (k2 % m.slopes.rows) (k2 / m.slopes.rows)
      if m.slopes_as_angles = true then P.atan s else s

/-- The aggregate of the per-column comparisons of cpp line 457: does any
value of the centers block of `values` differ from the current centers?
(`size` and `n_dims` are `centers_.rows()` / `centers_.cols()`.) -/
def centersDiffB (m : Model K) (values : FlatVec K) : Bool :=
  (List.range m.centers.cols).any fun i_dim =>
    (List.range m.centers.rows).any fun i =>
      decide (¬ m.centers.entry i i_dim = values.entry (i_dim * m.centers.rows + i))

/-- The aggregate of the per-column comparisons of cpp line 467: does any
value of the widths block of `values` differ from the current widths? -/
def widthsDiffB (m : Model K) (values : FlatVec K) : Bool :=
  (List.range m.centers.cols).any fun i_dim =>
    (List.range m.centers.rows).any fun i =>
      decide (¬ m.widths.entry i i_dim =
        values.entry (m.centers.cols * m.centers.rows + i_dim * m.centers.rows + i))

/-- `ModelParametersLWR::setParameterVectorAll(values)` (cpp lines 442-487):
on a length mismatch with `all_values_vector_size_`, report and return
without mutation.  Otherwise overwrite the blocks in layout order, using
`size = centers_.rows()` and `n_dims = centers_.cols()` throughout, and
clear the cache when a centers or widths column differs from its current
value (`offsets_` is reassigned as a `size × 1` column). -/
def Model.setParameterVectorAll (m : Model K) (values : FlatVec K) : Model K :=
  if values.len ≠ m.all_values_vector_size then m
  else
    let size := m.centers.rows
    let n_dims := m.centers.cols
    let m1 := if centersDiffB m values || widthsDiffB m values then m.clearCache else m
    { m1 with
      centers := MatrixR.ofFn m.centers.rows m.centers.cols fun i i_dim =>
        values.entry (i_dim * size + i)
      widths := MatrixR.ofFn m.widths.rows m.widths.cols fun i i_dim =>
        values.entry (n_dims * size + i_dim * size + i)
      offsets := MatrixR.ofFn size 1 fun i _ =>
        values.entry (2 * n_dims * size + i)
      slopes := MatrixR.ofFn m.slopes.rows m.slopes.cols fun i i_dim =>
        values.entry (2 * n_dims * size + size + i_dim * size + i) }

/-- Semantic version of `centersDiffB`: some value in the centers block of
the supplied vector differs from the corresponding current centers value. -/
def CentersDiff (m : Model K) (values : FlatVec K) : Prop :=
  ∃ j < m.centers.cols, ∃ i < m.centers.rows,
    ¬ m.centers.entry i j = values.entry (j * m.centers.rows + i)

/-- Semantic version of `widthsDiffB`: some value in the widths block of
the supplied vector differs from the corresponding current widths value. -/
def WidthsDiff (m : Model K) (values : FlatVec K) : Prop :=
  ∃ j < m.centers.cols, ∃ i < m.centers.rows,
    ¬ m.widths.entry i j =
      values.entry (m.centers.cols * m.centers.rows + j * m.centers.rows + i)

/-- Cache validity invariant: any stored cache entry records inputs of the
right width and the exact static normalized activations for them; holds at
construction (empty cache) and is preserved by every modelled operation. -/
def CacheOK (P : Prim K) (m : Model K) : Prop :=
  ∀ ci co, m.cache = some (ci, co) →
    ci.cols = m.centers.cols ∧
      co = LWR.normalizedKernelActivations P m.centers m.widths ci m.asymmetric_kernels

/-- The semantic cache-hit condition of spec §4.2: caching is enabled and
the requested inputs agree with the stored inputs in shape and in every
element. -/
def CacheHitSpec (m : Model K) (inputs : MatrixR K) : Prop :=
  m.caching = true ∧
    ∃ ci co, m.cache = some (ci, co) ∧
      inputs.rows = ci.rows ∧ inputs.cols = ci.cols ∧
      ∀ i < inputs.rows, ∀ j < inputs.cols, inputs.entry i j = ci.entry i j

/-- Concrete primitives over `ℚ` for evaluating the model at concrete
inputs (`exp` is everywhere positive, as the real `exp` is). -/
def demoPrim : Prim ℚ :=
  { exp := fun _ => 1, atan := fun _ => 0 }

/-- The spec §8 concrete scenario: 1 input dimension, 2 basis functions,
centers `[0, 10]`, widths `[2, 2]`, offsets `[0, 0]`, slopes `[1, 1]`,
symmetric kernels, pivot off. -/
def demoModel : Model ℚ :=
  mkModel
    (MatrixR.ofFn 2 1 fun i _ => if i = 0 then 0 else 10)
    (MatrixR.ofFn 2 1 fun _ _ => 2)
    (MatrixR.ofFn 2 1 fun _ _ => 1)
    (MatrixR.ofFn 2 1 fun _ _ => 0)
    false false

/-- A concrete 1-sample, 1-dimensional input batch. -/
def demoInputs : MatrixR ℚ :=
  MatrixR.ofFn 1 1 fun _ _ => 5

/-- A concrete cache entry (stored inputs and stored activations). -/
def demoCacheEntry : MatrixR ℚ × MatrixR ℚ :=
  (demoInputs, MatrixR.ofFn 1 2 fun _ _ => 1 / 2)

/-- `demoModel` with an activation-cache entry present. -/
def demoModelCached : Model ℚ :=
  { demoModel with cache := some demoCacheEntry }

/-- The spec §8 scenario with the pivot flag on. -/
def demoModelPivot : Model ℚ :=
  mkModel
    (MatrixR.ofFn 2 1 fun i _ => if i = 0 then 0 else 10)
    (MatrixR.ofFn 2 1 fun _ _ => 2)
    (MatrixR.ofFn 2 1 fun _ _ => 1)
    (MatrixR.ofFn 2 1 fun _ _ => 0)
    false true

/-- A flat vector of the wrong length for `demoModel`
(`all_values_vector_size` is 8 there). -/
def demoShortVec : FlatVec ℚ :=
  FlatVec.ofFn 3 fun _ => 0

/-- A flat vector of the right length for `demoModel` that changes only
the widths block (positions 2 and 3) and the offsets/slopes blocks. -/
def demoWidthsVec : FlatVec ℚ :=
  FlatVec.ofFn 8 fun k =>
    if k = 0 then 0 else if k = 1 then 10
    else if k = 2 then 3 else if k = 3 then 3
    else if k = 4 then 7 else if k = 5 then 7
    else if k = 6 then 2 else 2

/- ------------------------------------------------------------------ -/
/- Helper lemmas                                                       -/
/- ------------------------------------------------------------------ -/

theorem MatrixR.ofFn_rows (r c : Nat) (f : Nat → Nat → K) :
    (MatrixR.ofFn r c f).rows = r := rfl

theorem MatrixR.ofFn_cols (r c : Nat) (f : Nat → Nat → K) :
    (MatrixR.ofFn r c f).cols = c := rfl

theorem MatrixR.ofFn_entry_of_lt {r c i j : Nat} (f : Nat → Nat → K)
    (hi : i < r) (hj : j < c) : (MatrixR.ofFn r c f).entry i j = f i j := by
  simp [MatrixR.ofFn, hi, hj]

theorem MatrixR.isNormal_ofFn {r c : Nat} {f : Nat → Nat → K} :
    (MatrixR.ofFn r c f).IsNormal := by
  unfold MatrixR.IsNormal
  unfold MatrixR.ofFn
  simp only [MatrixR.mk.injEq, true_and]
  funext i j
  by_cases h : i < r ∧ j < c
  · simp [h]
  · simp [h]

theorem MatrixR.ofFn_congr {r c : Nat} {f g : Nat → Nat → K}
    (h : ∀ i < r, ∀ j < c, f i j = g i j) :
    MatrixR.ofFn r c f = MatrixR.ofFn r c g := by
  unfold MatrixR.ofFn
  simp only [MatrixR.mk.injEq, true_and]
  funext i j
  by_cases hij : i < r ∧ j < c
  · simp only [hij, if_pos]
    exact h i hij.1 j hij.2
  · simp [hij]

theorem MatrixR.ofFn_eq_of_isNormal {A : MatrixR K} {r c : Nat} {f : Nat → Nat → K}
    (hA : A.IsNormal) (hr : r = A.rows) (hc : c = A.cols)
    (he : ∀ i < r, ∀ j < c, f i j = A.entry i j) :
    MatrixR.ofFn r c f = A := by
  subst hr; subst hc
  calc MatrixR.ofFn A.rows A.cols f
      = MatrixR.ofFn A.rows A.cols A.entry := MatrixR.ofFn_congr he
    _ = A := hA.symm

theorem foldl_mul_eq_prod (g : Nat → K) (n : Nat) (a : K) :
    (List.range n).foldl (fun acc d => acc * g d) a =
      a * ∏ d ∈ Finset.range n, g d := by
  induction n generalizing a with
  | zero => simp
  | succ n ih =>
      rw [List.range_succ, List.foldl_append, ih, Finset.prod_range_succ]
      simp [mul_assoc]

theorem block_pos_lt {i j size nd : Nat} (hi : i < size) (hj : j < nd) :
    j * size + i < nd * size := by
  have h1 : j * size + i < (j + 1) * size := by
    rw [Nat.succ_mul]; omega
  have h2 : (j + 1) * size ≤ nd * size := Nat.mul_le_mul_right size (by omega)
  omega

theorem block_mod {i j size : Nat} (hi : i < size) :
    (j * size + i) % size = i := by
  rw [Nat.mul_comm, Nat.mul_add_mod, Nat.mod_eq_of_lt hi]

theorem block_div {i j size : Nat} (hi : i < size) :
    (j * size + i) / size = j := by
  rw [Nat.mul_comm, Nat.mul_add_div (by omega), Nat.div_eq_of_lt hi, Nat.add_zero]

theorem getParameterVectorAll_entry_centers (P : Prim K) {m : Model K} (h : WF m)
    {i j : Nat} (hi : i < m.centers.rows) (hj : j < m.centers.cols) :
    (m.getParameterVectorAll P).entry (j * m.centers.rows + i) = m.centers.entry i j := by
  have hblock : j * m.centers.rows + i < m.centers.cols * m.centers.rows :=
    block_pos_lt hi hj
  have e1 : m.centers.rows * m.centers.cols = m.centers.cols * m.centers.rows :=
    Nat.mul_comm _ _
  have hlen : j * m.centers.rows + i < m.all_values_vector_size := by
    rw [h.size_eq]; omega
  have hsc : j * m.centers.rows + i < m.centers.rows * m.centers.cols := by omega
  simp only [Model.getParameterVectorAll, FlatVec.ofFn]
  rw [if_pos hlen, if_pos hsc, block_mod hi, block_div hi]

theorem getParameterVectorAll_entry_widths (P : Prim K) {m : Model K} (h : WF m)
    {i j : Nat} (hi : i < m.centers.rows) (hj : j < m.centers.cols) :
    (m.getParameterVectorAll P).entry
        (m.centers.cols * m.centers.rows + j * m.centers.rows + i) =
      m.widths.entry i j := by
  have hblock : j * m.centers.rows + i < m.centers.cols * m.centers.rows :=
    block_pos_lt hi hj
  have e1 : m.centers.rows * m.centers.cols = m.centers.cols * m.centers.rows :=
    Nat.mul_comm _ _
  have e2 : m.widths.rows * m.widths.cols = m.centers.cols * m.centers.rows := by
    rw [h.widths_rows, h.widths_cols, Nat.mul_comm]
  have hlen : m.centers.cols * m.centers.rows + j * m.centers.rows + i
      < m.all_values_vector_size := by
    rw [h.size_eq]; omega
  have hsc : ¬ (m.centers.cols * m.centers.rows + j * m.centers.rows + i
      < m.centers.rows * m.centers.cols) := by omega
  have hsw : m.centers.cols * m.centers.rows + j * m.centers.rows + i
      < m.centers.rows * m.centers.cols + m.widths.rows * m.widths.cols := by omega
  have hsub : m.centers.cols * m.centers.rows + j * m.centers.rows + i
      - m.centers.rows * m.centers.cols = j * m.centers.rows + i := by omega
  simp only [Model.getParameterVectorAll, FlatVec.ofFn]
  rw [if_pos hlen, if_neg hsc, if_pos hsw, hsub, h.widths_rows,
    block_mod hi, block_div hi]

theorem getParameterVectorAll_entry_offsets (P : Prim K) {m : Model K} (h : WF m)
    {i : Nat} (hi : i < m.centers.rows) :
    (m.getParameterVectorAll P).entry (2 * m.centers.cols * m.centers.rows + i) =
      m.offsets.entry i 0 := by
  have e1 : m.centers.rows * m.centers.cols = m.centers.cols * m.centers.rows :=
    Nat.mul_comm _ _
  have e2 : m.widths.rows * m.widths.cols = m.centers.cols * m.centers.rows := by
    rw [h.widths_rows, h.widths_cols, Nat.mul_comm]
  have e3 : 2 * m.centers.cols * m.centers.rows =
      m.centers.cols * m.centers.rows + m.centers.cols * m.centers.rows := by ring
  have e4 : m.offsets.rows * m.offsets.cols = m.centers.rows := by
    rw [h.offsets_rows, h.offsets_cols, Nat.mul_one]
  have hlen : 2 * m.centers.cols * m.centers.rows + i < m.all_values_vector_size := by
    rw [h.size_eq]; omega
  have hsc : ¬ (2 * m.centers.cols * m.centers.rows + i
      < m.centers.rows * m.centers.cols) := by omega
  have hsw : ¬ (2 * m.centers.cols * m.centers.rows + i
      < m.centers.rows * m.centers.cols + m.widths.rows * m.widths.cols) := by omega
  have hso : 2 * m.centers.cols * m.centers.rows + i
      < m.centers.rows * m.centers.cols + m.widths.rows * m.widths.cols
        + m.offsets.rows := by
    rw [h.offsets_rows]; omega
  have hsub : 2 * m.centers.cols * m.centers.rows + i
      - (m.centers.rows * m.centers.cols + m.widths.rows * m.widths.cols) = i := by
    omega
  simp only [Model.getParameterVectorAll, FlatVec.ofFn]
  rw [if_pos hlen, if_neg hsc, if_neg hsw, if_pos hso, hsub]

theorem getParameterVectorAll_entry_slopes (P : Prim K) {m : Model K} (h : WF m)
    {i j : Nat} (hi : i < m.centers.rows) (hj : j < m.centers.cols) :
    (m.getParameterVectorAll P).entry
        (2 * m.centers.cols * m.centers.rows + m.centers.rows
          + j * m.centers.rows + i) =
      m.slopes.entry i j := by
  have hblock : j * m.centers.rows + i < m.centers.cols * m.centers.rows :=
    block_pos_lt hi hj
  have e1 : m.centers.rows * m.centers.cols = m.centers.cols * m.centers.rows :=
    Nat.mul_comm _ _
  have e2 : m.widths.rows * m.widths.cols = m.centers.cols * m.centers.rows := by
    rw [h.widths_rows, h.widths_cols, Nat.mul_comm]
  have e3 : 2 * m.centers.cols * m.centers.rows =
      m.centers.cols * m.centers.rows + m.centers.cols * m.centers.rows := by ring
  have e4 : m.offsets.rows * m.offsets.cols = m.centers.rows := by
    rw [h.offsets_rows, h.offsets_cols, Nat.mul_one]
  have e5 : m.slopes.rows * m.slopes.cols = m.centers.cols * m.centers.rows := by
    rw [h.slopes_rows, h.slopes_cols, Nat.mul_comm]
  have hlen : 2 * m.centers.cols * m.centers.rows + m.centers.rows
      + j * m.centers.rows + i < m.all_values_vector_size := by
    rw [h.size_eq]; omega
  have hsc : ¬ (2 * m.centers.cols * m.centers.rows + m.centers.rows
      + j * m.centers.rows + i < m.centers.rows * m.centers.cols) := by omega
  have hsw : ¬ (2 * m.centers.cols * m.centers.rows + m.centers.rows
      + j * m.centers.rows + i
      < m.centers.rows * m.centers.cols + m.widths.rows * m.widths.cols) := by omega
  have hso : ¬ (2 * m.centers.cols * m.centers.rows + m.centers.rows
      + j * m.centers.rows + i
      < m.centers.rows * m.centers.cols + m.widths.rows * m.widths.cols
        + m.offsets.rows) := by
    rw [h.offsets_rows]; omega
  have hsub : 2 * m.centers.cols * m.centers.rows + m.centers.rows
      + j * m.centers.rows + i
      - (m.centers.rows * m.centers.cols + m.widths.rows * m.widths.cols
        + m.offsets.rows) = j * m.centers.rows + i := by
    rw [h.offsets_rows]; omega
  simp only [Model.getParameterVectorAll, FlatVec.ofFn]
  rw [if_pos hlen, if_neg hsc, if_neg hsw, if_neg hso, hsub, h.angles_off,
    h.slopes_rows, block_mod hi, block_div hi]
  simp

theorem centersDiffB_iff {m : Model K} {v : FlatVec K} :
    centersDiffB m v = true ↔ CentersDiff m v := by
  unfold centersDiffB CentersDiff
  simp [List.any_eq_true, List.mem_range]

theorem widthsDiffB_iff {m : Model K} {v : FlatVec K} :
    widthsDiffB m v = true ↔ WidthsDiff m v := by
  unfold widthsDiffB WidthsDiff
  simp [List.any_eq_true, List.mem_range]

theorem setParameterVectorAll_eq {m : Model K} {v : FlatVec K}
    (hlen : v.len = m.all_values_vector_size) :
    m.setParameterVectorAll v =
      { m with
        centers := MatrixR.ofFn m.centers.rows m.centers.cols fun i i_dim =>
          v.entry (i_dim * m.centers.rows + i)
        widths := MatrixR.ofFn m.widths.rows m.widths.cols fun i i_dim =>
          v.entry (m.centers.cols * m.centers.rows + i_dim * m.centers.rows + i)
        offsets := MatrixR.ofFn m.centers.rows 1 fun i _ =>
          v.entry (2 * m.centers.cols * m.centers.rows + i)
        slopes := MatrixR.ofFn m.slopes.rows m.slopes.cols fun i i_dim =>
          v.entry (2 * m.centers.cols * m.centers.rows + m.centers.rows
            + i_dim * m.centers.rows + i)
        cache := if centersDiffB m v || widthsDiffB m v then none else m.cache } := by
  unfold Model.setParameterVectorAll
  rw [if_neg (fun hne => hne hlen)]
  cases hb : centersDiffB m v || widthsDiffB m v
  · simp only [hb]
    rfl
  · simp only [hb]
    rfl

/-- C1: `getParameterVectorAll()` immediately followed by
`setParameterVectorAll()` with the returned vector leaves the whole model
state (in particular centers, widths, offsets and slopes, and also the
cache) unchanged, and therefore every subsequent evaluation (`getLines`,
the cached `normalizedKernelActivations`, `locallyWeightedLines`) gives
the same result as on the original model, on any input batch. -/
theorem claim_C1_roundtrip (P : Prim K) (m : Model K) (h : WF m) :
    m.setParameterVectorAll (m.getParameterVectorAll P) = m ∧
    (∀ inputs, (m.setParameterVectorAll (m.getParameterVectorAll P)).getLines inputs
      = m.getLines inputs) ∧
    (∀ inputs,
      (m.setParameterVectorAll (m.getParameterVectorAll P)).normalizedKernelActivations
          P inputs
        = m.normalizedKernelActivations P inputs) ∧
    (∀ inputs,
      (m.setParameterVectorAll (m.getParameterVectorAll P)).locallyWeightedLines P inputs
        = m.locallyWeightedLines P inputs) := by
  have hset : m.setParameterVectorAll (m.getParameterVectorAll P) = m := by
    rw [setParameterVectorAll_eq rfl]
    have hcb : centersDiffB m (m.getParameterVectorAll P) = false := by
      rw [Bool.eq_false_iff]
      intro hb
      obtain ⟨j, hj, i, hi, hne⟩ := centersDiffB_iff.1 hb
      exact hne (getParameterVectorAll_entry_centers P h hi hj).symm
    have hwb : widthsDiffB m (m.getParameterVectorAll P) = false := by
      rw [Bool.eq_false_iff]
      intro hb
      obtain ⟨j, hj, i, hi, hne⟩ := widthsDiffB_iff.1 hb
      exact hne (getParameterVectorAll_entry_widths P h hi hj).symm
    have Hc : MatrixR.ofFn m.centers.rows m.centers.cols
        (fun i i_dim => (m.getParameterVectorAll P).entry (i_dim * m.centers.rows + i))
        = m.centers :=
      MatrixR.ofFn_eq_of_isNormal h.centers_normal rfl rfl
        (fun i hi j hj => getParameterVectorAll_entry_centers P h hi hj)
    have Hw : MatrixR.ofFn m.widths.rows m.widths.cols
        (fun i i_dim => (m.getParameterVectorAll P).entry
          (m.centers.cols * m.centers.rows + i_dim * m.centers.rows + i))
        = m.widths :=
      MatrixR.ofFn_eq_of_isNormal h.widths_normal rfl rfl
        (fun i hi j hj => getParameterVectorAll_entry_widths P h
          (h.widths_rows ▸ hi) (h.widths_cols ▸ hj))
    have Ho : MatrixR.ofFn m.centers.rows 1
        (fun i _ => (m.getParameterVectorAll P).entry
          (2 * m.centers.cols * m.centers.rows + i))
        = m.offsets := by
      apply MatrixR.ofFn_eq_of_isNormal h.offsets_normal
        h.offsets_rows.symm h.offsets_cols.symm
      intro i hi j hj
      have hj0 : j = 0 := by omega
      subst hj0
      exact getParameterVectorAll_entry_offsets P h hi
    have Hs : MatrixR.ofFn m.slopes.rows m.slopes.cols
        (fun i i_dim => (m.getParameterVectorAll P).entry
          (2 * m.centers.cols * m.centers.rows + m.centers.rows
            + i_dim * m.centers.rows + i))
        = m.slopes :=
      MatrixR.ofFn_eq_of_isNormal h.slopes_normal rfl rfl
        (fun i hi j hj => getParameterVectorAll_entry_slopes P h
          (h.slopes_rows ▸ hi) (h.slopes_cols ▸ hj))
    rw [hcb, hwb, Hc, Hw, Ho, Hs]
    simp
  exact ⟨hset, fun inputs => by rw [hset], fun inputs => by rw [hset],
    fun inputs => by rw [hset]⟩

theorem demoModel_wf : WF demoModel :=
  ⟨rfl, rfl, rfl, rfl, rfl, rfl, rfl, rfl, MatrixR.isNormal_ofFn,
    MatrixR.isNormal_ofFn, MatrixR.isNormal_ofFn, MatrixR.isNormal_ofFn⟩

theorem claim_C1_witness :
    WF demoModel ∧
      demoModel.setParameterVectorAll (demoModel.getParameterVectorAll demoPrim)
        = demoModel :=
  ⟨demoModel_wf, (claim_C1_roundtrip demoPrim demoModel demoModel_wf).1⟩

/-- C2: `setParameterVectorAll` (with a vector of the accepted length, on a
model whose cache holds an entry) empties the activation cache if and only
if some value in the centers block or the widths block of the supplied
vector differs from the corresponding current value; otherwise — in
particular whatever the new offsets and slopes values are — the cache
entry is left exactly as it was. -/
theorem claim_C2_cache_invalidation (m : Model K) (v : FlatVec K)
    (hlen : v.len = m.all_values_vector_size)
    (e : MatrixR K × MatrixR K) (hcache : m.cache = some e) :
    ((m.setParameterVectorAll v).cache = none ↔ (CentersDiff m v ∨ WidthsDiff m v)) ∧
    (¬ (CentersDiff m v ∨ WidthsDiff m v) → (m.setParameterVectorAll v).cache = m.cache) := by
  have hbool : (centersDiffB m v || widthsDiffB m v) = true
      ↔ (CentersDiff m v ∨ WidthsDiff m v) := by
    rw [Bool.or_eq_true, centersDiffB_iff, widthsDiffB_iff]
  have hc : (m.setParameterVectorAll v).cache =
      if centersDiffB m v || widthsDiffB m v then none else m.cache := by
    rw [setParameterVectorAll_eq hlen]
  cases hb : centersDiffB m v || widthsDiffB m v
  · rw [hb] at hc
    simp only [Bool.false_eq_true, if_false] at hc
    have hnp : ¬ (CentersDiff m v ∨ WidthsDiff m v) := by
      intro hp
      rw [hbool.2 hp] at hb
      exact absurd hb (by simp)
    constructor
    · rw [hc, hcache]
      exact ⟨fun hx => absurd hx (by simp), fun hp => absurd hp hnp⟩
    · intro _
      exact hc
  · rw [hb] at hc
    simp only [if_true] at hc
    exact ⟨iff_of_true hc (hbool.1 hb), fun hnp => absurd (hbool.1 hb) hnp⟩

theorem claim_C2_witness :
    demoWidthsVec.len = demoModelCached.all_values_vector_size ∧
    demoModelCached.cache = some demoCacheEntry ∧
    (((demoModelCached.setParameterVectorAll demoWidthsVec).cache = none) ↔
      (CentersDiff demoModelCached demoWidthsVec ∨ WidthsDiff demoModelCached demoWidthsVec)) :=
  ⟨by decide, rfl,
    (claim_C2_cache_invalidation demoModelCached demoWidthsVec (by decide)
      demoCacheEntry rfl).1⟩

/-- C8: when `setParameterVectorAll` is called with a vector whose length
differs from `getParameterVectorAllSize()`, the call is a no-op: the whole
model state — centers, widths, offsets, slopes, all flags and the
activation cache — is exactly as before the call.  (The accompanying
`cerr` report is an I/O side effect outside the state model.) -/
theorem claim_C8_wrong_size_noop (m : Model K) (v : FlatVec K)
    (h : v.len ≠ m.getParameterVectorAllSize) :
    m.setParameterVectorAll v = m := by
  unfold Model.getParameterVectorAllSize at h
  unfold Model.setParameterVectorAll
  rw [if_pos h]

theorem claim_C8_witness :
    demoShortVec.len ≠ demoModel.getParameterVectorAllSize ∧
    demoModel.setParameterVectorAll demoShortVec = demoModel :=
  ⟨by decide, claim_C8_wrong_size_noop demoModel demoShortVec (by decide)⟩

/-- C6: `set_lines_pivot_at_max_activation` is an exact no-op when the
requested value equals the current flag; when the value changes, only the
offsets (shifted by plus or minus the per-basis dot product
`slopes(b,·)·centers(b,·)`) and the flag itself change — centers, widths
and slopes are unchanged and the activation cache entry is neither
cleared nor modified. -/
theorem claim_C6_pivot_frame (m : Model K) (v : Bool) :
    (v = m.lines_pivot_at_max_activation → m.set_lines_pivot_at_max_activation v = m) ∧
    (v ≠ m.lines_pivot_at_max_activation →
      (m.set_lines_pivot_at_max_activation v).centers = m.centers ∧
      (m.set_lines_pivot_at_max_activation v).widths = m.widths ∧
      (m.set_lines_pivot_at_max_activation v).slopes = m.slopes ∧
      (m.set_lines_pivot_at_max_activation v).cache = m.cache ∧
      (m.set_lines_pivot_at_max_activation v).caching = m.caching ∧
      (m.set_lines_pivot_at_max_activation v).asymmetric_kernels = m.asymmetric_kernels ∧
      (m.set_lines_pivot_at_max_activation v).lines_pivot_at_max_activation = v ∧
      (m.set_lines_pivot_at_max_activation v).offsets.rows = m.offsets.rows ∧
      (m.set_lines_pivot_at_max_activation v).offsets.cols = m.offsets.cols ∧
      (∀ i < m.offsets.rows, ∀ j < m.offsets.cols,
        (m.set_lines_pivot_at_max_activation v).offsets.entry i j =
          if v = true then m.offsets.entry i j + m.slopesDotCenters i
          else m.offsets.entry i j - m.slopesDotCenters i)) := by
  constructor
  · intro h
    unfold Model.set_lines_pivot_at_max_activation
    rw [if_pos h.symm]
  · intro h
    have hne : ¬ (m.lines_pivot_at_max_activation = v) := fun he => h he.symm
    unfold Model.set_lines_pivot_at_max_activation
    rw [if_neg hne]
    cases v
    · refine ⟨rfl, rfl, rfl, rfl, rfl, rfl, rfl, rfl, rfl, ?_⟩
      intro i hi j hj
      simp only [Bool.false_eq_true, if_false]
      exact MatrixR.ofFn_entry_of_lt _ hi hj
    · refine ⟨rfl, rfl, rfl, rfl, rfl, rfl, rfl, rfl, rfl, ?_⟩
      intro i hi j hj
      simp only [if_true]
      exact MatrixR.ofFn_entry_of_lt _ hi hj

theorem set_pivot_centers (m : Model K) (v : Bool) :
    (m.set_lines_pivot_at_max_activation v).centers = m.centers := by
  unfold Model.set_lines_pivot_at_max_activation
  split <;> rfl

theorem set_pivot_widths (m : Model K) (v : Bool) :
    (m.set_lines_pivot_at_max_activation v).widths = m.widths := by
  unfold Model.set_lines_pivot_at_max_activation
  split <;> rfl

theorem set_pivot_slopes (m : Model K) (v : Bool) :
    (m.set_lines_pivot_at_max_activation v).slopes = m.slopes := by
  unfold Model.set_lines_pivot_at_max_activation
  split <;> rfl

theorem set_pivot_cache (m : Model K) (v : Bool) :
    (m.set_lines_pivot_at_max_activation v).cache = m.cache := by
  unfold Model.set_lines_pivot_at_max_activation
  split <;> rfl

theorem set_pivot_caching (m : Model K) (v : Bool) :
    (m.set_lines_pivot_at_max_activation v).caching = m.caching := by
  unfold Model.set_lines_pivot_at_max_activation
  split <;> rfl

theorem set_pivot_asym (m : Model K) (v : Bool) :
    (m.set_lines_pivot_at_max_activation v).asymmetric_kernels = m.asymmetric_kernels := by
  unfold Model.set_lines_pivot_at_max_activation
  split <;> rfl

theorem set_pivot_angles (m : Model K) (v : Bool) :
    (m.set_lines_pivot_at_max_activation v).slopes_as_angles = m.slopes_as_angles := by
  unfold Model.set_lines_pivot_at_max_activation
  split <;> rfl

theorem set_pivot_size (m : Model K) (v : Bool) :
    (m.set_lines_pivot_at_max_activation v).all_values_vector_size
      = m.all_values_vector_size := by
  unfold Model.set_lines_pivot_at_max_activation
  split <;> rfl

theorem set_pivot_flag (m : Model K) (v : Bool) :
    (m.set_lines_pivot_at_max_activation v).lines_pivot_at_max_activation = v := by
  unfold Model.set_lines_pivot_at_max_activation
  split
  · assumption
  · rfl

theorem set_pivot_dot (m : Model K) (v : Bool) :
    (m.set_lines_pivot_at_max_activation v).slopesDotCenters = m.slopesDotCenters := by
  funext i
  unfold Model.slopesDotCenters
  rw [set_pivot_centers, set_pivot_slopes]

theorem set_pivot_offsets_of_ne (m : Model K) (v : Bool)
    (hne : m.lines_pivot_at_max_activation ≠ v) :
    (m.set_lines_pivot_at_max_activation v).offsets =
      if v then
        MatrixR.ofFn m.offsets.rows m.offsets.cols fun i j =>
          m.offsets.entry i j + m.slopesDotCenters i
      else
        MatrixR.ofFn m.offsets.rows m.offsets.cols fun i j =>
          m.offsets.entry i j - m.slopesDotCenters i := by
  unfold Model.set_lines_pivot_at_max_activation
  rw [if_neg hne]

theorem kernelActivations_rows (P : Prim K) (centers widths inputs : MatrixR K)
    (asym : Bool) : (kernelActivations P centers widths inputs asym).rows = inputs.rows :=
  rfl

theorem kernelActivations_cols (P : Prim K) (centers widths inputs : MatrixR K)
    (asym : Bool) : (kernelActivations P centers widths inputs asym).cols = centers.rows :=
  rfl

theorem kernelActivations_entry (P : Prim K) (centers widths inputs : MatrixR K)
    (asym : Bool) {s b : Nat} (hs : s < inputs.rows) (hb : b < centers.rows) :
    (kernelActivations P centers widths inputs asym).entry s b =
      ∏ d ∈ Finset.range centers.cols, kernelTerm P centers widths inputs asym s b d := by
  unfold kernelActivations
  rw [MatrixR.ofFn_entry_of_lt _ hs hb, foldl_mul_eq_prod, one_mul]

theorem kernelTerm_pos (P : Prim K) (hP : ∀ x, 0 < P.exp x)
    (centers widths inputs : MatrixR K) (asym : Bool) (s b d : Nat) :
    0 < kernelTerm P centers widths inputs asym s b d := by
  unfold kernelTerm
  exact hP _

theorem kernelActivations_entry_pos (P : Prim K) (hP : ∀ x, 0 < P.exp x)
    (centers widths inputs : MatrixR K) (asym : Bool) {s b : Nat}
    (hs : s < inputs.rows) (hb : b < centers.rows) :
    0 < (kernelActivations P centers widths inputs asym).entry s b := by
  rw [kernelActivations_entry P centers widths inputs asym hs hb]
  exact Finset.prod_pos fun d _ => kernelTerm_pos P hP centers widths inputs asym s b d

theorem rowSums_kernel_pos (P : Prim K) (hP : ∀ x, 0 < P.exp x)
    (centers widths inputs : MatrixR K) (asym : Bool) {s : Nat}
    (hnb : 0 < centers.rows) (hs : s < inputs.rows) :
    0 < rowSumsOf (kernelActivations P centers widths inputs asym) s := by
  unfold rowSumsOf
  rw [kernelActivations_cols]
  apply Finset.sum_pos
  · intro b hb
    exact kernelActivations_entry_pos P hP centers widths inputs asym hs
      (Finset.mem_range.1 hb)
  · exact Finset.nonempty_range_iff.2 (by omega)

theorem anyZeroRowSum_kernel_false (P : Prim K) (hP : ∀ x, 0 < P.exp x)
    (centers widths inputs : MatrixR K) (asym : Bool) (hnb : 0 < centers.rows) :
    anyZeroRowSum (kernelActivations P centers widths inputs asym) = false := by
  unfold anyZeroRowSum
  rw [List.any_eq_false]
  intro s hsmem
  rw [kernelActivations_rows, List.mem_range] at hsmem
  simp only [decide_eq_true_eq]
  exact (rowSums_kernel_pos P hP centers widths inputs asym hnb hsmem).ne'

omit [LinearOrderedField K] in
theorem Model.ext_fields {a b : Model K}
    (h1 : a.centers = b.centers) (h2 : a.widths = b.widths)
    (h3 : a.slopes = b.slopes) (h4 : a.offsets = b.offsets)
    (h5 : a.asymmetric_kernels = b.asymmetric_kernels)
    (h6 : a.lines_pivot_at_max_activation = b.lines_pivot_at_max_activation)
    (h7 : a.slopes_as_angles = b.slopes_as_angles)
    (h8 : a.caching = b.caching)
    (h9 : a.all_values_vector_size = b.all_values_vector_size)
    (h10 : a.cache = b.cache) : a = b := by
  cases a
  cases b
  simp_all

/-- C5: toggling `lines_pivot_at_max_activation` twice (to the opposite
value and back) restores the model exactly — in particular the offsets —
and `getLines` returns the same output before and after the double toggle,
for any fixed input batch (exact arithmetic). -/
theorem claim_C5_double_toggle (m : Model K) (h : WF m) :
    (m.set_lines_pivot_at_max_activation
        (!m.lines_pivot_at_max_activation)).set_lines_pivot_at_max_activation
      m.lines_pivot_at_max_activation = m ∧
    ∀ inputs,
      ((m.set_lines_pivot_at_max_activation
          (!m.lines_pivot_at_max_activation)).set_lines_pivot_at_max_activation
        m.lines_pivot_at_max_activation).getLines inputs = m.getLines inputs := by
  have hne1 : m.lines_pivot_at_max_activation ≠ !m.lines_pivot_at_max_activation := by
    cases hx : m.lines_pivot_at_max_activation <;> simp
  have hne2 :
      (m.set_lines_pivot_at_max_activation
          (!m.lines_pivot_at_max_activation)).lines_pivot_at_max_activation
        ≠ m.lines_pivot_at_max_activation := by
    rw [set_pivot_flag]
    cases hx : m.lines_pivot_at_max_activation <;> simp
  have hres :
      (m.set_lines_pivot_at_max_activation
          (!m.lines_pivot_at_max_activation)).set_lines_pivot_at_max_activation
        m.lines_pivot_at_max_activation = m := by
    apply Model.ext_fields
    · rw [set_pivot_centers, set_pivot_centers]
    · rw [set_pivot_widths, set_pivot_widths]
    · rw [set_pivot_slopes, set_pivot_slopes]
    · rw [set_pivot_offsets_of_ne _ _ hne2, set_pivot_dot,
        set_pivot_offsets_of_ne _ _ hne1]
      cases hflag : m.lines_pivot_at_max_activation
      · simp only [Bool.not_false, if_true, Bool.false_eq_true, if_false,
          MatrixR.ofFn_rows, MatrixR.ofFn_cols]
        apply MatrixR.ofFn_eq_of_isNormal h.offsets_normal rfl rfl
        intro i hi j hj
        rw [MatrixR.ofFn_entry_of_lt _ hi hj]
        ring
      · simp only [Bool.not_true, Bool.false_eq_true, if_false, if_true,
          MatrixR.ofFn_rows, MatrixR.ofFn_cols]
        apply MatrixR.ofFn_eq_of_isNormal h.offsets_normal rfl rfl
        intro i hi j hj
        rw [MatrixR.ofFn_entry_of_lt _ hi hj]
        ring
    · rw [set_pivot_asym, set_pivot_asym]
    · rw [set_pivot_flag]
    · rw [set_pivot_angles, set_pivot_angles]
    · rw [set_pivot_caching, set_pivot_caching]
    · rw [set_pivot_size, set_pivot_size]
    · rw [set_pivot_cache, set_pivot_cache]
  exact ⟨hres, fun inputs => by rw [hres]⟩

theorem claim_C5_witness :
    WF demoModel ∧
      (demoModel.set_lines_pivot_at_max_activation
          (!demoModel.lines_pivot_at_max_activation)).set_lines_pivot_at_max_activation
        demoModel.lines_pivot_at_max_activation = demoModel :=
  ⟨demoModel_wf, (claim_C5_double_toggle demoModel demoModel_wf).1⟩

theorem claim_C6_witness :
    (true : Bool) ≠ demoModel.lines_pivot_at_max_activation ∧
    (demoModel.set_lines_pivot_at_max_activation true).cache = demoModel.cache ∧
    (∀ i < demoModel.offsets.rows, ∀ j < demoModel.offsets.cols,
      (demoModel.set_lines_pivot_at_max_activation true).offsets.entry i j =
        if true = true then demoModel.offsets.entry i j + demoModel.slopesDotCenters i
        else demoModel.offsets.entry i j - demoModel.slopesDotCenters i) := by
  have h := (claim_C6_pivot_frame demoModel true).2 (by decide)
  exact ⟨by decide, h.2.2.2.1, h.2.2.2.2.2.2.2.2.2⟩

/-- C9 counterexample: the claim says the clone's flags are reconstructed
to the default pivot-off state, but `clone()` passes
`lines_pivot_at_max_activation_` through to the constructor: cloning a
model whose pivot flag is on yields a clone whose pivot flag is on. -/
theorem claim_C9_cex :
    ¬ (demoModelPivot.clone.lines_pivot_at_max_activation = false) := by
  decide

omit [LinearOrderedField K] in
/-- C9 (amended): `clone()` produces a copy with the same centers, widths,
slopes and offsets and with the `asymmetric_kernels` and
`lines_pivot_at_max_activation` flags copied; the cache entry is not
copied (the clone starts with an empty cache), `slopes_as_angles_` is
reset to false and `caching_` to true, and the size field is recomputed
from the matrix shapes. -/
theorem claim_C9_clone_state (m : Model K) :
    m.clone.centers = m.centers ∧ m.clone.widths = m.widths ∧
    m.clone.slopes = m.slopes ∧ m.clone.offsets = m.offsets ∧
    m.clone.asymmetric_kernels = m.asymmetric_kernels ∧
    m.clone.lines_pivot_at_max_activation = m.lines_pivot_at_max_activation ∧
    m.clone.slopes_as_angles = false ∧
    m.clone.caching = true ∧
    m.clone.cache = none ∧
    m.clone.all_values_vector_size =
      m.centers.rows * m.centers.cols + m.widths.rows * m.widths.cols
        + m.offsets.rows * m.offsets.cols + m.slopes.rows * m.slopes.cols :=
  ⟨rfl, rfl, rfl, rfl, rfl, rfl, rfl, rfl, rfl, rfl⟩

/-- C7: each unnormalized kernel activation entry is the product, over the
dimensions, of `exp(-0.5*(x(s,d)-c(b,d))^2 / w(b,d)^2)` starting from 1,
where `w(b,d)` is `widths(b,d)` except that with the asymmetric flag,
`x(s,d) < c(b,d)` and `b > 0` it is the previous basis function's width
`widths(b-1,d)`; basis 0 always uses its own width. -/
theorem claim_C7_kernel_formula (P : Prim K) (centers widths inputs : MatrixR K)
    (asym : Bool) {s b : Nat} (hs : s < inputs.rows) (hb : b < centers.rows) :
    ((kernelActivations P centers widths inputs asym).entry s b =
      ∏ d ∈ Finset.range centers.cols,
        P.exp (-(1 / 2) * (inputs.entry s d - centers.entry b d) ^ 2 /
          ((if asym = true ∧ inputs.entry s d < centers.entry b d ∧ 0 < b then
              widths.entry (b - 1) d
            else widths.entry b d) *
            (if asym = true ∧ inputs.entry s d < centers.entry b d ∧ 0 < b then
              widths.entry (b - 1) d
            else widths.entry b d)))) ∧
    (b = 0 →
      (kernelActivations P centers widths inputs asym).entry s b =
        ∏ d ∈ Finset.range centers.cols,
          P.exp (-(1 / 2) * (inputs.entry s d - centers.entry b d) ^ 2 /
            (widths.entry b d * widths.entry b d))) := by
  have h1 : (kernelActivations P centers widths inputs asym).entry s b =
      ∏ d ∈ Finset.range centers.cols,
        kernelTerm P centers widths inputs asym s b d :=
    kernelActivations_entry P centers widths inputs asym hs hb
  constructor
  · rw [h1]
    apply Finset.prod_congr rfl
    intro d _
    unfold kernelTerm kernelWidth
    rfl
  · intro hb0
    subst hb0
    rw [h1]
    apply Finset.prod_congr rfl
    intro d _
    unfold kernelTerm kernelWidth
    rw [if_neg (by simp)]

theorem claim_C7_witness :
    0 < demoInputs.rows ∧ 0 < demoModel.centers.rows ∧
    (kernelActivations demoPrim demoModel.centers demoModel.widths demoInputs
        false).entry 0 0 =
      ∏ d ∈ Finset.range demoModel.centers.cols,
        demoPrim.exp (-(1 / 2) *
          (demoInputs.entry 0 d - demoModel.centers.entry 0 d) ^ 2 /
          ((if false = true ∧ demoInputs.entry 0 d < demoModel.centers.entry 0 d
                ∧ 0 < 0 then
              demoModel.widths.entry (0 - 1) d
            else demoModel.widths.entry 0 d) *
            (if false = true ∧ demoInputs.entry 0 d < demoModel.centers.entry 0 d
                ∧ 0 < 0 then
              demoModel.widths.entry (0 - 1) d
            else demoModel.widths.entry 0 d))) :=
  ⟨by decide, by decide,
    (claim_C7_kernel_formula demoPrim demoModel.centers demoModel.widths demoInputs
      false (by decide) (by decide)).1⟩

/-- C10: over exact arithmetic (with the positivity of the exponential),
in the static `normalizedKernelActivations` with more than one basis
function every raw kernel activation is strictly positive, every row sum
is strictly positive, the zero-row-sum compensation branch is not taken
(`anyZeroRowSum` is false), and the divisor of the final element-wise
division is never zero. -/
theorem claim_C10_no_division_by_zero (P : Prim K) (hP : ∀ x, 0 < P.exp x)
    (centers widths inputs : MatrixR K) (asym : Bool) (hnb : 1 < centers.rows) :
    (∀ s < inputs.rows, ∀ b < centers.rows,
      0 < (kernelActivations P centers widths inputs asym).entry s b) ∧
    (∀ s < inputs.rows,
      0 < rowSumsOf (kernelActivations P centers widths inputs asym) s) ∧
    anyZeroRowSum (kernelActivations P centers widths inputs asym) = false ∧
    (∀ s < inputs.rows,
      adjRowSum (kernelActivations P centers widths inputs asym) s =
        rowSumsOf (kernelActivations P centers widths inputs asym) s ∧
      adjRowSum (kernelActivations P centers widths inputs asym) s ≠ 0) := by
  have hany := anyZeroRowSum_kernel_false P hP centers widths inputs asym (by omega)
  refine ⟨?_, ?_, hany, ?_⟩
  · intro s hs b hb
    exact kernelActivations_entry_pos P hP centers widths inputs asym hs hb
  · intro s hs
    exact rowSums_kernel_pos P hP centers widths inputs asym (by omega) hs
  · intro s hs
    have hadj : adjRowSum (kernelActivations P centers widths inputs asym) s =
        rowSumsOf (kernelActivations P centers widths inputs asym) s := by
      unfold adjRowSum
      rw [hany]
      simp
    refine ⟨hadj, ?_⟩
    rw [hadj]
    exact (rowSums_kernel_pos P hP centers widths inputs asym (by omega) hs).ne'

theorem claim_C10_witness :
    (∀ x : ℚ, 0 < demoPrim.exp x) ∧ 1 < demoModel.centers.rows ∧
    anyZeroRowSum (kernelActivations demoPrim demoModel.centers demoModel.widths
      demoInputs false) = false :=
  ⟨fun _ => one_pos, by decide,
    (claim_C10_no_division_by_zero demoPrim (fun _ => one_pos) demoModel.centers
      demoModel.widths demoInputs false (by decide)).2.2.1⟩

/-- C4: for every input batch, with more than one basis function every row
of the static normalized activations sums to exactly 1 (exact arithmetic;
the spec's tolerance becomes equality), and with exactly one basis
function every entry is exactly 1 regardless of the inputs. -/
theorem claim_C4_rows_sum_to_one (P : Prim K) (hP : ∀ x, 0 < P.exp x)
    (centers widths inputs : MatrixR K) (asym : Bool) :
    (1 < centers.rows →
      ∀ s < inputs.rows,
        ∑ b ∈ Finset.range centers.rows,
          (normalizedKernelActivations P centers widths inputs asym).entry s b = 1) ∧
    (centers.rows = 1 →
      ∀ s < inputs.rows, ∀ b < centers.rows,
        (normalizedKernelActivations P centers widths inputs asym).entry s b = 1) := by
  constructor
  · intro hnb s hs
    have hany := anyZeroRowSum_kernel_false P hP centers widths inputs asym (by omega)
    unfold normalizedKernelActivations
    rw [if_neg (by omega)]
    have hentry : ∀ b ∈ Finset.range centers.rows,
        (MatrixR.ofFn (kernelActivations P centers widths inputs asym).rows
          (kernelActivations P centers widths inputs asym).cols
          (fun s b => (kernelActivations P centers widths inputs asym).entry s b /
            adjRowSum (kernelActivations P centers widths inputs asym) s)).entry s b
          = (kernelActivations P centers widths inputs asym).entry s b /
            adjRowSum (kernelActivations P centers widths inputs asym) s := by
      intro b hb
      exact MatrixR.ofFn_entry_of_lt _ hs (Finset.mem_range.1 hb)
    rw [Finset.sum_congr rfl hentry, ← Finset.sum_div]
    have hadj : adjRowSum (kernelActivations P centers widths inputs asym) s =
        rowSumsOf (kernelActivations P centers widths inputs asym) s := by
      unfold adjRowSum
      rw [hany]
      simp
    have hsum : rowSumsOf (kernelActivations P centers widths inputs asym) s =
        ∑ b ∈ Finset.range centers.rows,
          (kernelActivations P centers widths inputs asym).entry s b := by
      unfold rowSumsOf
      rw [kernelActivations_cols]
    rw [hadj, hsum]
    exact div_self (by
      rw [← hsum]
      exact (rowSums_kernel_pos P hP centers widths inputs asym (by omega) hs).ne')
  · intro hnb s hs b hb
    unfold normalizedKernelActivations
    rw [if_pos hnb]
    exact MatrixR.ofFn_entry_of_lt _ hs hb

theorem valsEqB_iff {A B : MatrixR K} :
    A.valsEqB B = true ↔ ∀ i < A.rows, ∀ j < A.cols, A.entry i j = B.entry i j := by
  unfold MatrixR.valsEqB
  simp [List.all_eq_true, List.mem_range]

theorem kernelActivations_congr (P : Prim K) (centers widths : MatrixR K)
    (asym : Bool) {inp1 inp2 : MatrixR K}
    (hr : inp1.rows = inp2.rows) (hd : centers.cols ≤ inp1.cols)
    (hv : ∀ i < inp1.rows, ∀ j < inp1.cols, inp1.entry i j = inp2.entry i j) :
    kernelActivations P centers widths inp1 asym =
      kernelActivations P centers widths inp2 asym := by
  unfold kernelActivations
  rw [hr]
  apply MatrixR.ofFn_congr
  intro s hsrow b _
  rw [foldl_mul_eq_prod, foldl_mul_eq_prod, one_mul, one_mul]
  apply Finset.prod_congr rfl
  intro d hdmem
  have hdlt : d < inp1.cols := lt_of_lt_of_le (Finset.mem_range.1 hdmem) hd
  have hs1 : s < inp1.rows := by rw [hr]; exact hsrow
  unfold kernelTerm kernelWidth
  rw [hv s hs1 d hdlt]

theorem normalizedKernelActivations_congr (P : Prim K) (centers widths : MatrixR K)
    (asym : Bool) {inp1 inp2 : MatrixR K}
    (hr : inp1.rows = inp2.rows) (hd : centers.cols ≤ inp1.cols)
    (hv : ∀ i < inp1.rows, ∀ j < inp1.cols, inp1.entry i j = inp2.entry i j) :
    normalizedKernelActivations P centers widths inp1 asym =
      normalizedKernelActivations P centers widths inp2 asym := by
  unfold normalizedKernelActivations
  by_cases h1 : centers.rows = 1
  · rw [if_pos h1, if_pos h1, hr]
  · rw [if_neg h1, if_neg h1, kernelActivations_congr P centers widths asym hr hd hv]

/-- C3: under the cache-validity invariant, the instance-level
`normalizedKernelActivations` takes the early cached-return path if and
only if the caching flag is enabled and the requested input matrix has the
same shape and exactly equal element values as the stored input matrix
(first call, caching disabled, shape mismatch or value mismatch all
recompute), and in all cases the returned matrix equals what the static
(uncached) routine produces on the current centers and widths. -/
theorem claim_C3_cache_contract (P : Prim K) (m : Model K) (inputs : MatrixR K)
    (hok : CacheOK P m) (hin : inputs.cols = m.centers.cols) :
    ((m.normalizedKernelActivations P inputs).used_cache = true ↔
      CacheHitSpec m inputs) ∧
    (m.normalizedKernelActivations P inputs).activations =
      LWR.normalizedKernelActivations P m.centers m.widths inputs
        m.asymmetric_kernels := by
  have hfb : ¬ ((false : Bool) = true) := by simp
  unfold Model.normalizedKernelActivations
  cases hcaching : m.caching
  · refine ⟨iff_of_false hfb ?_, rfl⟩
    intro hspec
    rw [hspec.1] at hcaching
    exact absurd hcaching (by simp)
  · cases hcache : m.cache
    · refine ⟨iff_of_false hfb ?_, rfl⟩
      rintro ⟨-, ci, co, heq, -⟩
      rw [hcache] at heq
      cases heq
    · rename_i entry
      obtain ⟨ci, co⟩ := entry
      dsimp only
      by_cases hshape : inputs.rows = ci.rows ∧ inputs.cols = ci.cols
      · rw [if_pos hshape]
        cases hvB : inputs.valsEqB ci
        · refine ⟨iff_of_false hfb ?_, rfl⟩
          rintro ⟨-, ci', co', heq, -, -, hvals⟩
          rw [hcache] at heq
          simp only [Option.some.injEq, Prod.mk.injEq] at heq
          obtain ⟨rfl, rfl⟩ := heq
          rw [valsEqB_iff.2 hvals] at hvB
          exact absurd hvB (by simp)
        · obtain ⟨hcw, hco⟩ := hok ci co hcache
          refine ⟨iff_of_true rfl
            ⟨hcaching, ci, co, hcache, hshape.1, hshape.2, valsEqB_iff.1 hvB⟩, ?_⟩
          show co = _
          rw [hco]
          exact (normalizedKernelActivations_congr P m.centers m.widths
            m.asymmetric_kernels hshape.1 (le_of_eq hin.symm)
            (valsEqB_iff.1 hvB)).symm
      · rw [if_neg hshape]
        refine ⟨iff_of_false hfb ?_, rfl⟩
        rintro ⟨-, ci', co', heq, h1, h2, -⟩
        rw [hcache] at heq
        simp only [Option.some.injEq, Prod.mk.injEq] at heq
        obtain ⟨rfl, rfl⟩ := heq
        exact hshape ⟨h1, h2⟩

theorem claim_C3_witness :
    CacheOK demoPrim demoModel ∧ demoInputs.cols = demoModel.centers.cols ∧
    (demoModel.normalizedKernelActivations demoPrim demoInputs).activations =
      normalizedKernelActivations demoPrim demoModel.centers demoModel.widths
        demoInputs demoModel.asymmetric_kernels :=
  And.intro (fun _ _ h => nomatch h) (And.intro rfl
    (claim_C3_cache_contract demoPrim demoModel demoInputs
      (fun _ _ h => nomatch h) rfl).2)

theorem claim_C4_witness :
    (∀ x : ℚ, 0 < demoPrim.exp x) ∧ 1 < demoModel.centers.rows ∧
    (∀ s < demoInputs.rows,
      ∑ b ∈ Finset.range demoModel.centers.rows,
        (normalizedKernelActivations demoPrim demoModel.centers demoModel.widths
          demoInputs false).entry s b = 1) :=
  ⟨fun _ => one_pos, by decide,
    (claim_C4_rows_sum_to_one demoPrim (fun _ => one_pos) demoModel.centers
      demoModel.widths demoInputs false).1 (by decide)⟩

/- Invariant preservation: the well-formedness predicate `WF` and the cache
validity invariant `CacheOK` hold at construction and are preserved by
every modelled operation, so the hypotheses of the claim theorems above
describe exactly the reachable states. -/

theorem WF_mkModel {centers widths slopes offsets : MatrixR K} {a p : Bool}
    (h1 : widths.rows = centers.rows) (h2 : widths.cols = centers.cols)
    (h3 : slopes.rows = centers.rows) (h4 : slopes.cols = centers.cols)
    (h5 : offsets.rows = centers.rows) (h6 : offsets.cols = 1)
    (n1 : centers.IsNormal) (n2 : widths.IsNormal)
    (n3 : slopes.IsNormal) (n4 : offsets.IsNormal) :
    WF (mkModel centers widths slopes offsets a p) :=
  ⟨h1, h2, h3, h4, h5, h6, rfl, rfl, n1, n2, n3, n4⟩

theorem WF_clone {m : Model K} (h : WF m) : WF m.clone :=
  ⟨h.widths_rows, h.widths_cols, h.slopes_rows, h.slopes_cols, h.offsets_rows,
    h.offsets_cols, rfl, rfl, h.centers_normal, h.widths_normal,
    h.slopes_normal, h.offsets_normal⟩

theorem set_pivot_offsets_rows (m : Model K) (v : Bool) :
    (m.set_lines_pivot_at_max_activation v).offsets.rows = m.offsets.rows := by
  unfold Model.set_lines_pivot_at_max_activation
  split
  · rfl
  · cases v <;> rfl

theorem set_pivot_offsets_cols (m : Model K) (v : Bool) :
    (m.set_lines_pivot_at_max_activation v).offsets.cols = m.offsets.cols := by
  unfold Model.set_lines_pivot_at_max_activation
  split
  · rfl
  · cases v <;> rfl

theorem set_pivot_offsets_normal (m : Model K) (v : Bool) (h : m.offsets.IsNormal) :
    (m.set_lines_pivot_at_max_activation v).offsets.IsNormal := by
  unfold Model.set_lines_pivot_at_max_activation
  split
  · exact h
  · cases v
    · exact MatrixR.isNormal_ofFn
    · exact MatrixR.isNormal_ofFn

theorem WF_set_pivot {m : Model K} (h : WF m) (v : Bool) :
    WF (m.set_lines_pivot_at_max_activation v) := by
  refine ⟨?_, ?_, ?_, ?_, ?_, ?_, ?_, ?_, ?_, ?_, ?_, ?_⟩
  · rw [set_pivot_widths, set_pivot_centers]; exact h.widths_rows
  · rw [set_pivot_widths, set_pivot_centers]; exact h.widths_cols
  · rw [set_pivot_slopes, set_pivot_centers]; exact h.slopes_rows
  · rw [set_pivot_slopes, set_pivot_centers]; exact h.slopes_cols
  · rw [set_pivot_offsets_rows, set_pivot_centers]; exact h.offsets_rows
  · rw [set_pivot_offsets_cols]; exact h.offsets_cols
  · rw [set_pivot_size, set_pivot_centers, set_pivot_widths, set_pivot_offsets_rows,
      set_pivot_offsets_cols, set_pivot_slopes]
    exact h.size_eq
  · rw [set_pivot_angles]; exact h.angles_off
  · rw [set_pivot_centers]; exact h.centers_normal
  · rw [set_pivot_widths]; exact h.widths_normal
  · rw [set_pivot_slopes]; exact h.slopes_normal
  · exact set_pivot_offsets_normal m v h.offsets_normal

theorem WF_setParameterVectorAll {m : Model K} (h : WF m) (v : FlatVec K) :
    WF (m.setParameterVectorAll v) := by
  by_cases hlen : v.len = m.all_values_vector_size
  · rw [setParameterVectorAll_eq hlen]
    refine ⟨h.widths_rows, h.widths_cols, h.slopes_rows, h.slopes_cols,
      rfl, rfl, ?_, h.angles_off, MatrixR.isNormal_ofFn,
      MatrixR.isNormal_ofFn, MatrixR.isNormal_ofFn, MatrixR.isNormal_ofFn⟩
    show m.all_values_vector_size = _
    rw [h.size_eq, h.offsets_rows, h.offsets_cols]
    rfl
  · unfold Model.setParameterVectorAll
    rw [if_pos hlen]
    exact h

theorem cacheOK_mkModel (P : Prim K) (centers widths slopes offsets : MatrixR K)
    (a p : Bool) : CacheOK P (mkModel centers widths slopes offsets a p) :=
  fun _ _ hc => nomatch hc

theorem cacheOK_clone (P : Prim K) (m : Model K) : CacheOK P m.clone :=
  fun _ _ hc => nomatch hc

theorem cacheOK_set_pivot (P : Prim K) {m : Model K} (hok : CacheOK P m) (v : Bool) :
    CacheOK P (m.set_lines_pivot_at_max_activation v) := by
  intro ci co hc
  rw [set_pivot_cache] at hc
  obtain ⟨h1, h2⟩ := hok ci co hc
  rw [set_pivot_centers, set_pivot_widths, set_pivot_asym]
  exact ⟨h1, h2⟩

theorem cacheOK_setParameterVectorAll (P : Prim K) {m : Model K} (h : WF m)
    (hok : CacheOK P m) (v : FlatVec K) :
    CacheOK P (m.setParameterVectorAll v) := by
  by_cases hlen : v.len = m.all_values_vector_size
  · rw [setParameterVectorAll_eq hlen]
    intro ci co hc
    dsimp only at hc ⊢
    cases hb : centersDiffB m v || widthsDiffB m v
    · rw [hb] at hc
      simp only [Bool.false_eq_true, if_false] at hc
      obtain ⟨h1, h2⟩ := hok ci co hc
      have hnc : ¬ CentersDiff m v := fun hp => by
        rw [centersDiffB_iff.2 hp] at hb
        simp at hb
      have hnw : ¬ WidthsDiff m v := fun hp => by
        rw [widthsDiffB_iff.2 hp] at hb
        simp at hb
      have hcen : MatrixR.ofFn m.centers.rows m.centers.cols
          (fun i i_dim => v.entry (i_dim * m.centers.rows + i)) = m.centers := by
        apply MatrixR.ofFn_eq_of_isNormal h.centers_normal rfl rfl
        intro i hi j hj
        by_contra hne
        exact hnc ⟨j, hj, i, hi, fun he => hne he.symm⟩
      have hwid : MatrixR.ofFn m.widths.rows m.widths.cols
          (fun i i_dim => v.entry
            (m.centers.cols * m.centers.rows + i_dim * m.centers.rows + i))
          = m.widths := by
        apply MatrixR.ofFn_eq_of_isNormal h.widths_normal rfl rfl
        intro i hi j hj
        by_contra hne
        exact hnw ⟨j, h.widths_cols ▸ hj, i, h.widths_rows ▸ hi, fun he => hne he.symm⟩
      refine ⟨h1, ?_⟩
      rw [h2, hcen, hwid]
    · rw [hb] at hc
      simp only [if_true] at hc
      cases hc
  · unfold Model.setParameterVectorAll
    rw [if_pos hlen]
    exact hok

end LWR
